import Mathlib

/-!
Verification development for two components of the qcodes repository:

* `qcodes/dataset/sqlite/db_upgrades/upgrade_5_to_6.py` — the schema upgrade
  from version 5 to version 6 of the experiment-metadata database.
* `qcodes/instrument_drivers/Keysight/keysightb1500/KeysightB1520A.py` — the
  driver for the Keysight B1520A capacitance measurement unit.

The development embeds the relevant Python functions shallowly: Python dicts
produced by `json.loads` become association lists that keep insertion order,
machine floats that only ever hold exact decimal values become rationals,
fallible code returns `Option`/`Except`, and stateful methods become explicit
state-passing functions that also return the command strings they would send.
-/

/-! ### A model of the JSON subset handled by Python's `json` module

`upgrade_5_to_6` round-trips run descriptions through `json.loads` and
`json.dumps`.  The `json` module is Python's standard library, so it is
modelled here: values are objects (insertion-ordered key/value lists, as
Python dicts are), arrays, strings, integers, booleans and null.  Floating
point number literals and `\uXXXX` escapes are not modelled; none of the
documents handled by the claims contain them.  `jsonDumps` matches
`json.dumps`'s default formatting (separators `", "` and `": "`), and
`jsonLoads` is a whitespace-tolerant recursive-descent parser that rejects
trailing garbage, as `json.loads` does. -/

inductive Json : Type where
  | null : Json
  | jbool : Bool → Json
  | jint : Int → Json
  | jstr : String → Json
  | jarr : List Json → Json
  | jobj : List (String × Json) → Json

/-- The ten decimal digit characters, used by the decimal printers/parsers. -/
def digitChar : Nat → Char
  | 0 => '0'
  | 1 => '1'
  | 2 => '2'
  | 3 => '3'
  | 4 => '4'
  | 5 => '5'
  | 6 => '6'
  | 7 => '7'
  | 8 => '8'
  | _ => '9'

/-- Numeric value of a decimal digit character (0 for non-digits). -/
def digitVal : Char → Nat
  | '0' => 0
  | '1' => 1
  | '2' => 2
  | '3' => 3
  | '4' => 4
  | '5' => 5
  | '6' => 6
  | '7' => 7
  | '8' => 8
  | '9' => 9
  | _ => 0

/-- Decimal digit test (`[0-9]`). -/
def isDig (c : Char) : Bool :=
  (c == '0') || (c == '1') || (c == '2') || (c == '3') || (c == '4') ||
  (c == '5') || (c == '6') || (c == '7') || (c == '8') || (c == '9')

/-- Fuel-driven decimal printer for naturals (most significant digit first).
The fuel makes the definition structurally recursive so that concrete values
reduce inside the kernel; `natToChars` supplies sufficient fuel. -/
def natToCharsAux : Nat → Nat → List Char
  | 0, _ => []
  | f + 1, n =>
    if n < 10 then [digitChar n]
    else natToCharsAux f (n / 10) ++ [digitChar (n % 10)]

/-- Decimal representation of a natural number, e.g. `0 ↦ "0"`, `17 ↦ "17"`. -/
def natToChars (n : Nat) : List Char := natToCharsAux (n + 1) n

/-- Decimal representation of an integer, matching Python `str(int)`. -/
def intToChars (n : Int) : List Char :=
  if n < 0 then '-' :: natToChars n.natAbs else natToChars n.toNat

/-- Value of a most-significant-first digit string. -/
def charsToNat (ds : List Char) : Nat :=
  ds.foldl (fun a c => a * 10 + digitVal c) 0

/-- Longest prefix of decimal digits, together with the rest. -/
def takeDigits : List Char → List Char × List Char
  | [] => ([], [])
  | c :: cs =>
    if isDig c then
      let (a, b) := takeDigits cs
      (c :: a, b)
    else ([], c :: cs)

/-- Whether a character list starts with a decimal digit. -/
def digHead : List Char → Bool
  | [] => false
  | c :: _ => isDig c

/-- JSON string-body escaping: `json.dumps` escapes `"` and `\`.  (Control
characters and non-ASCII escapes are not modelled; no claim document contains
them.) -/
def jsonEscape : List Char → List Char
  | [] => []
  | c :: cs =>
    if c = '"' ∨ c = '\\' then '\\' :: c :: jsonEscape cs
    else c :: jsonEscape cs

mutual

/-- `json.dumps` with its default separators `", "` and `": "`. -/
def dumpVal : Json → List Char
  | .null => ['n', 'u', 'l', 'l']
  | .jbool true => ['t', 'r', 'u', 'e']
  | .jbool false => ['f', 'a', 'l', 's', 'e']
  | .jint n => intToChars n
  | .jstr s => '"' :: (jsonEscape s.toList ++ ['"'])
  | .jarr [] => ['[', ']']
  | .jarr (x :: xs) => '[' :: (dumpVal x ++ (dumpArrTail xs ++ [']']))
  | .jobj [] => ['\x7b', '\x7d']
  | .jobj (kv :: kvs) => '\x7b' :: (dumpMember kv ++ (dumpObjTail kvs ++ ['\x7d']))

def dumpMember : String × Json → List Char
  | (k, v) => '"' :: (jsonEscape k.toList ++ ('"' :: ':' :: ' ' :: dumpVal v))

def dumpArrTail : List Json → List Char
  | [] => []
  | x :: xs => ',' :: ' ' :: (dumpVal x ++ dumpArrTail xs)

def dumpObjTail : List (String × Json) → List Char
  | [] => []
  | kv :: kvs => ',' :: ' ' :: (dumpMember kv ++ dumpObjTail kvs)

end

/-- Serialization of a JSON document, modelling `json.dumps` with default
options. -/
def jsonDumps (v : Json) : String := String.mk (dumpVal v)

/-- Drop leading whitespace (the parser's token separator skipping). -/
def skipWs : List Char → List Char
  | [] => []
  | c :: cs => if c.isWhitespace then skipWs cs else c :: cs

/-- Parse the body of a JSON string after the opening quote; understands the
`\"` and `\\` escapes emitted by `jsonEscape`.  Returns the decoded
characters and the input after the closing quote. -/
def parseStringBody : List Char → Option (List Char × List Char)
  | [] => none
  | c :: rest =>
    if c = '"' then some ([], rest)
    else if c = '\\' then
      match rest with
      | [] => none
      | e :: rest2 =>
        if e = '"' ∨ e = '\\' then
          (parseStringBody rest2).map (fun p => (e :: p.1, p.2))
        else none
    else (parseStringBody rest).map (fun p => (c :: p.1, p.2))

/-- Parse a JSON integer literal (optional minus sign, then digits). -/
def parseNumber : List Char → Option (Json × List Char)
  | [] => none
  | c :: cs =>
    if c = '-' then
      if (takeDigits cs).1.isEmpty then none
      else some (.jint (-(charsToNat (takeDigits cs).1 : Int)), (takeDigits cs).2)
    else
      if (takeDigits (c :: cs)).1.isEmpty then none
      else some (.jint (charsToNat (takeDigits (c :: cs)).1 : Int),
                 (takeDigits (c :: cs)).2)

mutual

/-- Fuel-driven recursive-descent parser for a JSON value.  Returns the value
and the unconsumed input.  (Head characters are dispatched with equality
tests; inputs that fail a keyword match fall through to `none`, exactly as the
keyword-or-number fallback of a JSON grammar does.) -/
def parseVal : Nat → List Char → Option (Json × List Char)
  | 0, _ => none
  | f + 1, cs =>
    match skipWs cs with
    | [] => none
    | c :: rest =>
      if c = '"' then
        (parseStringBody rest).map (fun p => (.jstr (String.mk p.1), p.2))
      else if c = '[' then
        match skipWs rest with
        | [] => none
        | c2 :: r =>
          if c2 = ']' then some (.jarr [], r)
          else (parseElems f (c2 :: r)).map (fun p => (.jarr p.1, p.2))
      else if c = '\x7b' then
        match skipWs rest with
        | [] => none
        | c2 :: r =>
          if c2 = '\x7d' then some (.jobj [], r)
          else (parseMembers f (c2 :: r)).map (fun p => (.jobj p.1, p.2))
      else if c = 'n' then
        match rest with
        | c1 :: c2 :: c3 :: rest2 =>
          if c1 = 'u' ∧ c2 = 'l' ∧ c3 = 'l' then some (.null, rest2) else none
        | _ => none
      else if c = 't' then
        match rest with
        | c1 :: c2 :: c3 :: rest2 =>
          if c1 = 'r' ∧ c2 = 'u' ∧ c3 = 'e' then some (.jbool true, rest2)
          else none
        | _ => none
      else if c = 'f' then
        match rest with
        | c1 :: c2 :: c3 :: c4 :: rest2 =>
          if c1 = 'a' ∧ c2 = 'l' ∧ c3 = 's' ∧ c4 = 'e' then
            some (.jbool false, rest2)
          else none
        | _ => none
      else parseNumber (c :: rest)

/-- Parse the elements of a non-empty JSON array up to and including the
closing bracket. -/
def parseElems : Nat → List Char → Option (List Json × List Char)
  | 0, _ => none
  | f + 1, cs =>
    match parseVal f cs with
    | none => none
    | some (v, rest) =>
      match skipWs rest with
      | [] => none
      | c :: rest2 =>
        if c = ',' then (parseElems f rest2).map (fun p => (v :: p.1, p.2))
        else if c = ']' then some ([v], rest2)
        else none

/-- Parse the members of a non-empty JSON object up to and including the
closing brace. -/
def parseMembers : Nat → List Char → Option (List (String × Json) × List Char)
  | 0, _ => none
  | f + 1, cs =>
    match skipWs cs with
    | [] => none
    | c :: rest =>
      if c = '"' then
        match parseStringBody rest with
        | none => none
        | some (kcs, r1) =>
          match skipWs r1 with
          | [] => none
          | c2 :: r2 =>
            if c2 = ':' then
              match parseVal f r2 with
              | none => none
              | some (v, r3) =>
                match skipWs r3 with
                | [] => none
                | c3 :: r4 =>
                  if c3 = ',' then
                    (parseMembers f r4).map
                      (fun p => ((String.mk kcs, v) :: p.1, p.2))
                  else if c3 = '\x7d' then some ([(String.mk kcs, v)], r4)
                  else none
            else none
      else none

end

/-- `json.loads`: parse a complete document, rejecting trailing garbage.  The
fuel `2 * length + 2` dominates the parser's recursion depth, which advances
the input by at least one character every two nested calls. -/
def jsonLoads (s : String) : Option Json :=
  match parseVal (2 * s.length + 2) s.toList with
  | some (v, rest) => if (skipWs rest).isEmpty then some v else none
  | none => none

/-- Python `dict` lookup on a parsed JSON object: the last binding of a key
wins, as it does for duplicate keys in `json.loads`; non-objects have no
items (`ser['interdependencies']` raises for them). -/
def lookupLast : List (String × Json) → String → Option Json
  | [], _ => none
  | (k, v) :: rest, key =>
    match lookupLast rest key with
    | some r => some r
    | none => if k = key then some v else none

/-- `j[key]` for a parsed JSON document `j`:  `none` models the
`KeyError`/`TypeError` that Python raises. -/
def jsonLookup (j : Json) (key : String) : Option Json :=
  match j with
  | .jobj kvs => lookupLast kvs key
  | _ => none

/-- First serialized key of a JSON document (objects only). -/
def jsonFirstKey : Json → Option String
  | .jobj ((k, _) :: _) => some k
  | _ => none

/-! ### The schema upgrade `upgrade_5_to_6`

`qcodes/dataset/sqlite/db_upgrades/upgrade_5_to_6.py` iterates over runs
`1..max(run_id)`, reads each run's description (`get_run_description`, which
may return `NULL` for legacy rows), rewrites it, and writes it back
(`update_run_description`), the whole loop inside one `atomic(conn)` block.
The store of run descriptions is modelled as a list whose `i`-th entry is the
description of run `i + 1`; `get_run_description`/`update_run_description`
and the `atomic` transaction context live in repository modules that are not
part of the sources under verification, so their contracts are modelled from
the spec (see `upgrade_5_to_6` below). -/

/-- Modelled from the spec: `InterDependencies().serialize()` — the canonical
empty serialized dependency set (`qcodes.dataset.dependencies` is outside the
verified sources; the spec treats the value as an opaque serialized
sub-document, modelled here as an object with an empty parameter-spec list). -/
def empty_idps_ser : Json := .jobj [(("paramspecs"), .jarr [])]

/-- The per-run body of the upgrade loop (`upgrade_5_to_6.py` lines 35–44):
an absent description becomes the canonical empty document; otherwise the
description is parsed (`json.loads`), its `'interdependencies'` entry is
looked up, and a fresh document `{'version': 0, 'interdependencies': …}` is
serialized, `'version'` first.  `none` models the exception raised on
malformed JSON (`json.loads`) or on a missing `'interdependencies'` key. -/
def upgradeOneDesc : Option String → Option String
  | none =>
    some (jsonDumps (.jobj [(("version"), .jint 0),
                            (("interdependencies"), empty_idps_ser)]))
  | some json_str =>
    match jsonLoads json_str with
    | none => none
    | some ser =>
      match jsonLookup ser ("interdependencies") with
      | none => none
      | some idps =>
        some (jsonDumps (.jobj [(("version"), .jint 0),
                                (("interdependencies"), idps)]))

/-- The upgrade loop over runs `1..max(run_id)`: each description is rewritten
in order; the first exception aborts the whole loop. -/
def upgradeRuns : List (Option String) → Option (List (Option String))
  | [] => some []
  | d :: rest =>
    match upgradeOneDesc d with
    | none => none
    | some d' => (upgradeRuns rest).map (fun r => some d' :: r)

/-- `upgrade_5_to_6`, modelled from the spec for the transaction boundary: the
loop runs inside `atomic(conn)` (`qcodes.dataset.sqlite.connection`, outside
the verified sources), whose contract is commit on clean exit and rollback of
every write on any exception.  On success the rewritten store persists; on
any failure the pre-upgrade store persists unchanged. -/
def upgrade_5_to_6 (store : List (Option String)) : List (Option String) :=
  match upgradeRuns store with
  | some out => out
  | none => store

/-- If some run's description makes the per-run body fail, the whole loop
fails, regardless of the other runs. -/
theorem upgradeRuns_eq_none_of_fail (store : List (Option String)) (K : Nat)
    (dK : Option String) (hK : store[K]? = some dK)
    (hfail : upgradeOneDesc dK = none) : upgradeRuns store = none := by
  induction store generalizing K with
  | nil => simp at hK
  | cons d rest ih =>
    cases K with
    | zero =>
      simp at hK
      subst hK
      simp [upgradeRuns, hfail]
    | succ k =>
      simp at hK
      have hrest := ih k hK
      unfold upgradeRuns
      cases hd : upgradeOneDesc d <;> simp [hrest]

/-- C1: if the upgrade fails while processing any run `K` (for instance
because that run's stored description is malformed), the `atomic` transaction
rolls every write back: the persisted store equals the pre-upgrade store, so
in particular every run with `run_id < K` keeps a byte-identical
description. -/
theorem upgrade_5_to_6_atomic (store : List (Option String)) (K : Nat)
    (dK : Option String) (hK : store[K]? = some dK)
    (hfail : upgradeOneDesc dK = none) :
    upgrade_5_to_6 store = store ∧
      ∀ i, i < K → (upgrade_5_to_6 store)[i]? = store[i]? := by
  have h := upgradeRuns_eq_none_of_fail store K dK hK hfail
  refine ⟨?_, ?_⟩
  · simp [upgrade_5_to_6, h]
  · intro i _
    simp [upgrade_5_to_6, h]

/-- Witness for C1: a two-run store whose second run's description is the
malformed document `"{"`; the upgrade leaves the store byte-identical. -/
theorem upgrade_5_to_6_atomic_witness :
    upgrade_5_to_6 [some ("\x7b\"interdependencies\": \"a\"\x7d"), some ("\x7b")]
        = [some ("\x7b\"interdependencies\": \"a\"\x7d"), some ("\x7b")] ∧
      ∀ i, i < 1 →
        (upgrade_5_to_6 [some ("\x7b\"interdependencies\": \"a\"\x7d"),
            some ("\x7b")])[i]?
          = [some ("\x7b\"interdependencies\": \"a\"\x7d"),
             some ("\x7b")][i]? :=
  upgrade_5_to_6_atomic _ 1 (some ("\x7b")) (by rfl) (by rfl)

/-- On a successful upgrade, the persisted description of each run is exactly
the per-run rewrite of its pre-upgrade description. -/
theorem upgradeRuns_get (store out : List (Option String))
    (h : upgradeRuns store = some out) :
    ∀ (i : Nat) (d : Option String),
      store[i]? = some d → out[i]? = some (upgradeOneDesc d) := by
  induction store generalizing out with
  | nil => simp [upgradeRuns] at h; subst h; simp
  | cons hd rest ih =>
    unfold upgradeRuns at h
    cases hone : upgradeOneDesc hd with
    | none => simp [hone] at h
    | some d' =>
      simp only [hone] at h
      cases hrest : upgradeRuns rest with
      | none => simp [hrest] at h
      | some out' =>
        simp only [hrest, Option.map_some', Option.some_inj] at h
        subst h
        intro i d hi
        cases i with
        | zero => simp at hi; subst hi; simp [hone]
        | succ j => simp at hi ⊢; exact ih out' hrest j d hi

/-- The canonical empty description document written for runs with an absent
(`NULL`) description. -/
def canonicalEmptyDesc : String :=
  jsonDumps (.jobj [(("version"), .jint 0),
                    (("interdependencies"), empty_idps_ser)])

/-- C8: a run with an absent (`None`) stored description is upgraded to the
canonical empty document `{version: 0, interdependencies: <empty dependency
set>}`, with `version` as the first serialized key. -/
theorem upgrade_none_desc_canonical (store out : List (Option String))
    (K : Nat) (hok : upgradeRuns store = some out) (hK : store[K]? = some none) :
    out[K]? = some (some canonicalEmptyDesc) ∧
      (jsonLoads canonicalEmptyDesc).map jsonFirstKey
        = some (some ("version")) ∧
      (jsonLoads canonicalEmptyDesc).bind (jsonLookup · ("interdependencies"))
        = some empty_idps_ser := by
  refine ⟨?_, by rfl, by rfl⟩
  have := upgradeRuns_get store out hok K none hK
  simpa [upgradeOneDesc, canonicalEmptyDesc] using this

/-- Witness for C8: a one-run store with an absent description. -/
theorem upgrade_none_desc_canonical_witness :
    [some canonicalEmptyDesc][0]? = some (some canonicalEmptyDesc) ∧
      (jsonLoads canonicalEmptyDesc).map jsonFirstKey
        = some (some ("version")) ∧
      (jsonLoads canonicalEmptyDesc).bind (jsonLookup · ("interdependencies"))
        = some empty_idps_ser :=
  upgrade_none_desc_canonical [none] [some canonicalEmptyDesc] 0 (by rfl) (by rfl)

/-! ### Correctness of the JSON codec: `jsonLoads` inverts `jsonDumps`

These lemmas establish `jsonLoads (jsonDumps v) = some v`, which backs the
idempotence part of the upgrade claims: a description written by the upgrade
parses back to exactly the document that was serialized. -/

theorem isDig_cases {c : Char} (h : isDig c = true) :
    c = '0' ∨ c = '1' ∨ c = '2' ∨ c = '3' ∨ c = '4' ∨
    c = '5' ∨ c = '6' ∨ c = '7' ∨ c = '8' ∨ c = '9' := by
  simp [isDig] at h
  tauto

theorem digitVal_digitChar {d : Nat} (h : d < 10) :
    digitVal (digitChar d) = d := by
  interval_cases d <;> rfl

theorem isDig_digitChar {d : Nat} (h : d < 10) :
    isDig (digitChar d) = true := by
  interval_cases d <;> rfl

theorem natToCharsAux_congr :
    ∀ (n f g : Nat), n < f → n < g → natToCharsAux f n = natToCharsAux g n := by
  intro n
  induction n using Nat.strong_induction_on with
  | _ n ih =>
    intro f g hf hg
    match f, g with
    | f' + 1, g' + 1 =>
      simp only [natToCharsAux]
      by_cases h : n < 10
      · simp [h]
      · simp only [if_neg h]
        have hd : n / 10 < n := Nat.div_lt_self (by omega) (by omega)
        rw [ih (n / 10) hd f' g' (by omega) (by omega)]

/-- The recursion equation of the decimal printer, fuel eliminated. -/
theorem natToChars_eq (n : Nat) : natToChars n =
    if n < 10 then [digitChar n]
    else natToChars (n / 10) ++ [digitChar (n % 10)] := by
  by_cases h : n < 10
  · simp [natToChars, natToCharsAux, h]
  · have hd : n / 10 < n := Nat.div_lt_self (by omega) (by omega)
    simp only [if_neg h]
    show natToCharsAux (n + 1) n = natToCharsAux (n / 10 + 1) (n / 10) ++ [digitChar (n % 10)]
    rw [show natToCharsAux (n + 1) n
          = natToCharsAux n (n / 10) ++ [digitChar (n % 10)] from by
        simp [natToCharsAux, h]]
    rw [natToCharsAux_congr (n / 10) n (n / 10 + 1) (by omega) (by omega)]

theorem natToChars_ne_nil (n : Nat) : natToChars n ≠ [] := by
  rw [natToChars_eq]
  split <;> simp

theorem natToChars_all_digits :
    ∀ n : Nat, ∀ c ∈ natToChars n, isDig c = true := by
  intro n
  induction n using Nat.strong_induction_on with
  | _ n ih =>
    rw [natToChars_eq]
    by_cases h : n < 10
    · simp only [if_pos h]
      intro c hc
      simp at hc
      subst hc
      exact isDig_digitChar h
    · simp only [if_neg h]
      intro c hc
      rcases List.mem_append.mp hc with h1 | h2
      · exact ih (n / 10) (Nat.div_lt_self (by omega) (by omega)) c h1
      · simp at h2
        subst h2
        exact isDig_digitChar (Nat.mod_lt _ (by omega))

theorem charsToNat_append_digit (a : List Char) (d : Char) :
    charsToNat (a ++ [d]) = charsToNat a * 10 + digitVal d := by
  simp [charsToNat, List.foldl_append]

theorem charsToNat_natToChars : ∀ n : Nat, charsToNat (natToChars n) = n := by
  intro n
  induction n using Nat.strong_induction_on with
  | _ n ih =>
    rw [natToChars_eq]
    by_cases h : n < 10
    · simp only [if_pos h]
      simp [charsToNat, digitVal_digitChar h]
    · simp only [if_neg h]
      rw [charsToNat_append_digit,
          ih (n / 10) (Nat.div_lt_self (by omega) (by omega)),
          digitVal_digitChar (Nat.mod_lt _ (by omega))]
      omega

theorem takeDigits_of_not_digHead {rest : List Char} (h : digHead rest = false) :
    takeDigits rest = ([], rest) := by
  cases rest with
  | nil => rfl
  | cons c cs =>
    simp [digHead] at h
    simp [takeDigits, h]

theorem takeDigits_append (ds rest : List Char)
    (hds : ∀ c ∈ ds, isDig c = true) (hrest : digHead rest = false) :
    takeDigits (ds ++ rest) = (ds, rest) := by
  induction ds with
  | nil => simpa using takeDigits_of_not_digHead hrest
  | cons c cs ih =>
    have hc : isDig c = true := hds c (by simp)
    have hcs : ∀ x ∈ cs, isDig x = true := fun x hx => hds x (by simp [hx])
    simp [takeDigits, hc, ih hcs]

theorem not_ws_of_isDig {c : Char} (h : isDig c = true) :
    c.isWhitespace = false := by
  rcases isDig_cases h with rfl | rfl | rfl | rfl | rfl | rfl | rfl | rfl | rfl | rfl <;> rfl

theorem ne_minus_of_isDig {c : Char} (h : isDig c = true) : c ≠ '-' := by
  rcases isDig_cases h with rfl | rfl | rfl | rfl | rfl | rfl | rfl | rfl | rfl | rfl <;> decide

/-- Unfolding lemma for `parseNumber` on a non-empty input. -/
theorem parseNumber_cons (c : Char) (cs : List Char) :
    parseNumber (c :: cs) =
      if c = '-' then
        if (takeDigits cs).1.isEmpty then none
        else some (.jint (-(charsToNat (takeDigits cs).1 : Int)), (takeDigits cs).2)
      else
        if (takeDigits (c :: cs)).1.isEmpty then none
        else some (.jint (charsToNat (takeDigits (c :: cs)).1 : Int),
                   (takeDigits (c :: cs)).2) := by
  rfl

/-- Decimal integer printing parses back to the printed integer. -/
theorem parseNumber_intToChars (n : Int) (rest : List Char)
    (hrest : digHead rest = false) :
    parseNumber (intToChars n ++ rest) = some (.jint n, rest) := by
  by_cases h : n < 0
  · simp only [intToChars, if_pos h, List.cons_append]
    rw [parseNumber_cons, if_pos rfl,
      takeDigits_append _ _ (natToChars_all_digits _) hrest]
    cases hnc : natToChars n.natAbs with
    | nil => exact absurd hnc (natToChars_ne_nil _)
    | cons c cs =>
      rw [← hnc]
      simp only [List.isEmpty_eq_true, natToChars_ne_nil, if_false,
        charsToNat_natToChars]
      have hval : -((n.natAbs : Nat) : Int) = n := by omega
      rw [hval]
  · simp only [intToChars, if_neg h]
    cases hnc : natToChars n.toNat with
    | nil => exact absurd hnc (natToChars_ne_nil _)
    | cons c cs =>
      have hc : isDig c = true := natToChars_all_digits _ c (by rw [hnc]; simp)
      have ht : takeDigits (c :: (cs ++ rest)) = (c :: cs, rest) := by
        rw [← List.cons_append, ← hnc,
          takeDigits_append _ _ (natToChars_all_digits _) hrest, hnc]
      show parseNumber (c :: (cs ++ rest)) = some (Json.jint n, rest)
      rw [parseNumber_cons, if_neg (ne_minus_of_isDig hc), ht]
      simp only [List.isEmpty_cons, Bool.false_eq_true, if_false]
      rw [← hnc, charsToNat_natToChars]
      have hval : ((n.toNat : Nat) : Int) = n := by omega
      rw [hval]

/-- The body of a serialized string parses back to the original characters. -/
theorem parseStringBody_escape :
    ∀ (cs rest : List Char),
      parseStringBody (jsonEscape cs ++ ('"' :: rest)) = some (cs, rest) := by
  intro cs
  induction cs with
  | nil =>
    intro rest
    rw [jsonEscape, List.nil_append, parseStringBody.eq_def]
    simp
  | cons c cs ih =>
    intro rest
    by_cases h : c = '"' ∨ c = '\\'
    · rw [jsonEscape, if_pos h, List.cons_append, List.cons_append,
        parseStringBody.eq_def]
      simp only [if_neg (by decide : ¬('\\' : Char) = '"'), if_pos rfl,
        if_pos h, ih]
      rfl
    · push_neg at h
      rw [jsonEscape, if_neg (by tauto : ¬(c = '"' ∨ c = '\\')),
        List.cons_append, parseStringBody.eq_def]
      simp only [if_neg h.1, if_neg h.2, ih]
      rfl

theorem skipWs_cons_of_not_ws {c : Char} (h : c.isWhitespace = false)
    (cs : List Char) : skipWs (c :: cs) = c :: cs := by
  rw [skipWs, h]
  simp

theorem skipWs_cons_ws {c : Char} (h : c.isWhitespace = true)
    (cs : List Char) : skipWs (c :: cs) = skipWs cs := by
  rw [skipWs, h]
  simp

theorem isDig_not_special {c : Char} (h : isDig c = true) :
    c.isWhitespace = false ∧ c ≠ ']' ∧ c ≠ '\x7d' := by
  rcases isDig_cases h with rfl | rfl | rfl | rfl | rfl | rfl | rfl | rfl | rfl | rfl <;>
    exact ⟨rfl, by decide, by decide⟩

theorem intToChars_head (n : Int) :
    ∃ c tl, intToChars n = c :: tl ∧ (isDig c = true ∨ c = '-') := by
  unfold intToChars
  by_cases h : n < 0
  · exact ⟨'-', natToChars n.natAbs, by simp [h], Or.inr rfl⟩
  · simp only [if_neg h]
    cases hnc : natToChars n.toNat with
    | nil => exact absurd hnc (natToChars_ne_nil _)
    | cons c cs =>
      exact ⟨c, cs, rfl, Or.inl (natToChars_all_digits _ c (by rw [hnc]; simp))⟩

/-- Every serialized document starts with a non-whitespace character that is
neither a closing bracket nor a closing brace. -/
theorem dumpVal_head (v : Json) :
    ∃ c tl, dumpVal v = c :: tl ∧ c.isWhitespace = false ∧
      c ≠ ']' ∧ c ≠ '\x7d' := by
  cases v with
  | null => exact ⟨'n', _, rfl, rfl, by decide, by decide⟩
  | jbool b =>
    cases b with
    | false => exact ⟨'f', _, rfl, rfl, by decide, by decide⟩
    | true => exact ⟨'t', _, rfl, rfl, by decide, by decide⟩
  | jint n =>
    obtain ⟨c, tl, hc, hd⟩ := intToChars_head n
    rcases hd with hdig | rfl
    · obtain ⟨h1, h2, h3⟩ := isDig_not_special hdig
      exact ⟨c, tl, by rw [dumpVal]; exact hc, h1, h2, h3⟩
    · exact ⟨'-', tl, by rw [dumpVal]; exact hc, rfl, by decide, by decide⟩
  | jstr s => exact ⟨'"', _, rfl, rfl, by decide, by decide⟩
  | jarr l =>
    cases l with
    | nil => exact ⟨'[', _, by rw [dumpVal], rfl, by decide, by decide⟩
    | cons x xs => exact ⟨'[', _, by rw [dumpVal], rfl, by decide, by decide⟩
  | jobj l =>
    cases l with
    | nil => exact ⟨'\x7b', _, by rw [dumpVal], rfl, by decide, by decide⟩
    | cons kv kvs => exact ⟨'\x7b', _, by rw [dumpVal], rfl, by decide, by decide⟩

theorem skipWs_dump (v : Json) (l : List Char) :
    skipWs (dumpVal v ++ l) = dumpVal v ++ l := by
  obtain ⟨c, tl, hc, hws, _, _⟩ := dumpVal_head v
  rw [hc, List.cons_append, skipWs_cons_of_not_ws hws]

/-- `parseVal` only looks at its input through `skipWs`. -/
theorem parseVal_skipWs_congr (g : Nat) (a b : List Char)
    (h : skipWs a = skipWs b) : parseVal g a = parseVal g b := by
  cases g with
  | zero => rfl
  | succ g =>
    rw [parseVal, parseVal, h]

/-- Leading blanks are absorbed by the element parser. -/
theorem parseElems_ws (g : Nat) (c : Char) (h : c.isWhitespace = true)
    (l : List Char) : parseElems g (c :: l) = parseElems g l := by
  cases g with
  | zero => rfl
  | succ g =>
    rw [parseElems, parseElems,
      parseVal_skipWs_congr g (c :: l) l (skipWs_cons_ws h l)]

/-- Leading blanks are absorbed by the member parser. -/
theorem parseMembers_ws (g : Nat) (c : Char) (h : c.isWhitespace = true)
    (l : List Char) : parseMembers g (c :: l) = parseMembers g l := by
  cases g with
  | zero => rfl
  | succ g =>
    rw [parseMembers, parseMembers, skipWs_cons_ws h l]

theorem string_mk_toList (s : String) : String.mk s.toList = s := by
  cases s
  rfl

theorem dumpVal_length_pos (v : Json) : 1 ≤ (dumpVal v).length := by
  obtain ⟨c, tl, hc, _⟩ := dumpVal_head v
  rw [hc]
  simp

/-- Main parser/printer agreement, by induction on the parser fuel: with
enough fuel, parsing a dumped value (followed by anything that cannot be
mistaken for more digits) returns exactly that value. -/
theorem parse_dump_aux : ∀ f : Nat,
    (∀ (v : Json) (rest : List Char),
        (dumpVal v).length + 1 ≤ f → digHead rest = false →
        parseVal f (dumpVal v ++ rest) = some (v, rest)) ∧
    (∀ (x : Json) (xs : List Json) (rest : List Char),
        (dumpVal x).length + (dumpArrTail xs).length + 2 ≤ f →
        digHead rest = false →
        parseElems f (dumpVal x ++ (dumpArrTail xs ++ (']' :: rest)))
          = some (x :: xs, rest)) ∧
    (∀ (k : String) (v : Json) (kvs : List (String × Json)) (rest : List Char),
        (dumpMember (k, v)).length + (dumpObjTail kvs).length + 2 ≤ f →
        digHead rest = false →
        parseMembers f (dumpMember (k, v) ++ (dumpObjTail kvs ++ ('\x7d' :: rest)))
          = some ((k, v) :: kvs, rest)) := by
  intro f
  induction f with
  | zero =>
    refine ⟨?_, ?_, ?_⟩ <;> · intros; omega
  | succ f ih =>
    obtain ⟨ihA, ihB, ihC⟩ := ih
    have digHead_arr : ∀ (xs : List Json) (rest : List Char),
        digHead rest = false →
        digHead (dumpArrTail xs ++ (']' :: rest)) = false := by
      intro xs rest _
      cases xs with
      | nil => rw [dumpArrTail]; rfl
      | cons y ys => rw [dumpArrTail]; rfl
    have digHead_obj : ∀ (kvs : List (String × Json)) (rest : List Char),
        digHead rest = false →
        digHead (dumpObjTail kvs ++ ('\x7d' :: rest)) = false := by
      intro kvs rest _
      cases kvs with
      | nil => rw [dumpObjTail]; rfl
      | cons kv' kvs' => rw [dumpObjTail]; rfl
    refine ⟨?_, ?_, ?_⟩
    · -- the value parser inverts the value printer
      intro v rest hlen hdh
      cases v with
      | null =>
        rw [show dumpVal .null ++ rest = 'n' :: 'u' :: 'l' :: 'l' :: rest from rfl]
        rw [parseVal, skipWs_cons_of_not_ws (by decide)]
        simp
      | jbool b =>
        cases b with
        | true =>
          rw [show dumpVal (.jbool true) ++ rest
                = 't' :: 'r' :: 'u' :: 'e' :: rest from rfl]
          rw [parseVal, skipWs_cons_of_not_ws (by decide)]
          simp
        | false =>
          rw [show dumpVal (.jbool false) ++ rest
                = 'f' :: 'a' :: 'l' :: 's' :: 'e' :: rest from rfl]
          rw [parseVal, skipWs_cons_of_not_ws (by decide)]
          simp
      | jint n =>
        rw [show dumpVal (.jint n) = intToChars n from by rw [dumpVal]]
        obtain ⟨c, tl, hc, hd⟩ := intToChars_head n
        have hgoal : parseVal (f + 1) (intToChars n ++ rest)
            = parseNumber (intToChars n ++ rest) := by
          rw [hc, List.cons_append]
          have hws : c.isWhitespace = false := by
            rcases hd with hdig | rfl
            · exact (isDig_not_special hdig).1
            · rfl
          rw [parseVal, skipWs_cons_of_not_ws hws]
          rcases hd with hdig | rfl
          · rcases isDig_cases hdig with
              rfl | rfl | rfl | rfl | rfl | rfl | rfl | rfl | rfl | rfl <;> simp
          · simp
        rw [hgoal, parseNumber_intToChars n rest hdh]
      | jstr s =>
        rw [show dumpVal (.jstr s) ++ rest
              = '"' :: (jsonEscape s.toList ++ ('"' :: rest)) from by
            rw [dumpVal]; simp]
        rw [parseVal, skipWs_cons_of_not_ws (by decide)]
        simp only [if_pos rfl, parseStringBody_escape]
        simp [string_mk_toList]
      | jarr l =>
        cases l with
        | nil =>
          rw [show dumpVal (.jarr []) ++ rest = '[' :: ']' :: rest from by
              rw [dumpVal]; rfl]
          rw [parseVal, skipWs_cons_of_not_ws (by decide)]
          simp [skipWs]
        | cons x xs =>
          rw [show dumpVal (.jarr (x :: xs)) ++ rest
                = '[' :: (dumpVal x ++ (dumpArrTail xs ++ (']' :: rest))) from by
              rw [dumpVal]; simp]
          rw [parseVal, skipWs_cons_of_not_ws (by decide)]
          simp only [if_neg (by decide : ¬('[' : Char) = '"'), if_pos rfl]
          rw [skipWs_dump x (dumpArrTail xs ++ (']' :: rest))]
          obtain ⟨c0, tl0, hx, hws0, hne1, hne2⟩ := dumpVal_head x
          rw [hx, List.cons_append]
          simp only [if_neg hne1]
          rw [← List.cons_append, ← hx]
          have hlen' : (dumpVal x).length + (dumpArrTail xs).length + 2 ≤ f := by
            rw [dumpVal] at hlen
            simp only [List.length_cons, List.length_append] at hlen
            omega
          rw [ihB x xs rest hlen' hdh]
          rfl
      | jobj l =>
        cases l with
        | nil =>
          rw [show dumpVal (.jobj []) ++ rest = '\x7b' :: '\x7d' :: rest from by
              rw [dumpVal]; rfl]
          rw [parseVal, skipWs_cons_of_not_ws (by decide)]
          simp [skipWs]
        | cons kv kvs =>
          obtain ⟨k, v⟩ := kv
          rw [show dumpVal (.jobj ((k, v) :: kvs)) ++ rest
                = '\x7b' :: (dumpMember (k, v) ++ (dumpObjTail kvs ++ ('\x7d' :: rest))) from by
              rw [dumpVal]; simp]
          rw [parseVal, skipWs_cons_of_not_ws (by decide)]
          simp only [if_neg (by decide : ¬('\x7b' : Char) = '"'),
            if_neg (by decide : ¬('\x7b' : Char) = '['), if_pos rfl]
          rw [show dumpMember (k, v)
                = '"' :: (jsonEscape k.toList ++ ('"' :: ':' :: ' ' :: dumpVal v)) from by
              rw [dumpMember]]
          rw [List.cons_append, skipWs_cons_of_not_ws (by decide)]
          simp only [if_neg (by decide : ¬('"' : Char) = '\x7d')]
          rw [← List.cons_append]
          rw [show ('"' :: (jsonEscape k.toList ++ ('"' :: ':' :: ' ' :: dumpVal v)))
                = dumpMember (k, v) from by rw [dumpMember]]
          have hlen' : (dumpMember (k, v)).length + (dumpObjTail kvs).length + 2 ≤ f := by
            rw [dumpVal] at hlen
            simp only [List.length_cons, List.length_append] at hlen
            omega
          rw [ihC k v kvs rest hlen' hdh]
          rfl
    · -- the element parser inverts the array-tail printer
      intro x xs rest hlen hdh
      rw [parseElems]
      have hlenA : (dumpVal x).length + 1 ≤ f := by omega
      rw [ihA x (dumpArrTail xs ++ (']' :: rest)) hlenA (digHead_arr xs rest hdh)]
      cases xs with
      | nil =>
        simp [dumpArrTail, skipWs]
      | cons y ys =>
        rw [dumpArrTail,
          show (',' :: ' ' :: (dumpVal y ++ dumpArrTail ys)) ++ (']' :: rest)
              = ',' :: ' ' :: (dumpVal y ++ (dumpArrTail ys ++ (']' :: rest))) from by
            simp]
        simp only [skipWs_cons_of_not_ws
            (show (',' : Char).isWhitespace = false from by decide),
          if_pos rfl]
        rw [parseElems_ws f ' ' (by decide)]
        have hpos := dumpVal_length_pos x
        have hlen' : (dumpVal y).length + (dumpArrTail ys).length + 2 ≤ f := by
          rw [dumpArrTail] at hlen
          simp only [List.length_cons, List.length_append] at hlen
          omega
        rw [ihB y ys rest hlen' hdh]
        rfl
    · -- the member parser inverts the object-tail printer
      intro k v kvs rest hlen hdh
      rw [parseMembers]
      rw [show dumpMember (k, v) ++ (dumpObjTail kvs ++ ('\x7d' :: rest))
            = '"' :: (jsonEscape k.toList
                ++ ('"' :: ':' :: ' ' :: (dumpVal v ++ (dumpObjTail kvs ++ ('\x7d' :: rest))))) from by
          rw [dumpMember]; simp]
      rw [skipWs_cons_of_not_ws (by decide)]
      simp only [if_pos rfl, parseStringBody_escape]
      rw [skipWs_cons_of_not_ws (by decide)]
      simp only [if_pos rfl]
      rw [parseVal_skipWs_congr f
          (' ' :: (dumpVal v ++ (dumpObjTail kvs ++ ('\x7d' :: rest))))
          (dumpVal v ++ (dumpObjTail kvs ++ ('\x7d' :: rest)))
          (skipWs_cons_ws (by decide) _)]
      have hmlen : (dumpMember (k, v)).length
          = (jsonEscape k.toList).length + (dumpVal v).length + 4 := by
        rw [dumpMember]
        simp
        omega
      have hlenA : (dumpVal v).length + 1 ≤ f := by omega
      rw [ihA v (dumpObjTail kvs ++ ('\x7d' :: rest)) hlenA
        (digHead_obj kvs rest hdh)]
      cases kvs with
      | nil =>
        simp [dumpObjTail, skipWs, string_mk_toList]
      | cons kv' kvs' =>
        obtain ⟨k', v'⟩ := kv'
        rw [dumpObjTail,
          show (',' :: ' ' :: (dumpMember (k', v') ++ dumpObjTail kvs'))
                  ++ ('\x7d' :: rest)
              = ',' :: ' ' :: (dumpMember (k', v') ++ (dumpObjTail kvs' ++ ('\x7d' :: rest))) from by
            simp]
        simp only [skipWs_cons_of_not_ws
            (show (',' : Char).isWhitespace = false from by decide),
          if_pos rfl]
        rw [parseMembers_ws f ' ' (by decide)]
        have hlen' : (dumpMember (k', v')).length + (dumpObjTail kvs').length + 2 ≤ f := by
          rw [dumpObjTail] at hlen
          simp only [List.length_cons, List.length_append] at hlen
          omega
        rw [ihC k' v' kvs' rest hlen' hdh]
        simp [string_mk_toList]

/-- `json.loads` inverts `json.dumps`: every document the upgrade serializes
parses back to exactly the document that was serialized. -/
theorem jsonLoads_jsonDumps (v : Json) : jsonLoads (jsonDumps v) = some v := by
  unfold jsonLoads jsonDumps
  have h1 : (String.mk (dumpVal v)).toList = dumpVal v := rfl
  have h2 : (String.mk (dumpVal v)).length = (dumpVal v).length := rfl
  rw [h1, h2]
  have hmain := (parse_dump_aux (2 * (dumpVal v).length + 2)).1 v []
    (by omega) rfl
  rw [List.append_nil] at hmain
  rw [hmain]
  rfl

/-- C3 counterexample: a run whose stored description already carries
`"version": 5` is rewritten by the upgrade to a document with `"version": 0`
— the code sets the version to 0 unconditionally rather than defaulting it to
0 only when the parsed JSON lacks one. -/
theorem upgrade_overwrites_existing_version :
    upgrade_5_to_6 [some ("\x7b\"version\": 5, \"interdependencies\": \"X\"\x7d")]
      = [some ("\x7b\"version\": 0, \"interdependencies\": \"X\"\x7d")] ∧
    ((jsonLoads ("\x7b\"version\": 5, \"interdependencies\": \"X\"\x7d")).bind
        (jsonLookup · ("version"))) = some (.jint 5) ∧
    ((jsonLoads ("\x7b\"version\": 0, \"interdependencies\": \"X\"\x7d")).bind
        (jsonLookup · ("version"))) = some (.jint 0) ∧
    ¬ ((jsonLoads ("\x7b\"version\": 0, \"interdependencies\": \"X\"\x7d")).bind
        (jsonLookup · ("version"))) = some (.jint 5) := by
  refine ⟨by rfl, by rfl, by rfl, ?_⟩
  intro h
  rw [show ((jsonLoads ("\x7b\"version\": 0, \"interdependencies\": \"X\"\x7d")).bind
      (jsonLookup · ("version"))) = some (.jint 0) from rfl] at h
  simp at h

/-- C3 (amended): for every run whose stored description is valid JSON with
an `'interdependencies'` key, the upgrade rewrites it to a document whose
first key is `version`, whose version value is always 0 (not preserved from
the parsed document), and whose `'interdependencies'` value is the parsed
document's value copied verbatim; re-running the upgrade on such a rewritten
description is a complete no-op (in particular a no-op on
`'interdependencies'`). -/
theorem upgrade_rewrites_with_version_zero (store out : List (Option String))
    (K : Nat) (s : String) (j v : Json)
    (hK : store[K]? = some (some s))
    (hparse : jsonLoads s = some j)
    (hidps : jsonLookup j ("interdependencies") = some v)
    (hok : upgradeRuns store = some out) :
    out[K]? = some (some (jsonDumps (.jobj [(("version"), .jint 0),
        (("interdependencies"), v)]))) ∧
    jsonFirstKey (.jobj [(("version"), .jint 0), (("interdependencies"), v)])
      = some ("version") ∧
    upgradeOneDesc (some (jsonDumps (.jobj [(("version"), .jint 0),
        (("interdependencies"), v)])))
      = some (jsonDumps (.jobj [(("version"), .jint 0),
          (("interdependencies"), v)])) := by
  have hone : ∀ t : String, upgradeOneDesc (some t)
      = match jsonLoads t with
        | none => none
        | some ser =>
          match jsonLookup ser ("interdependencies") with
          | none => none
          | some idps =>
            some (jsonDumps (.jobj [(("version"), .jint 0),
                                    (("interdependencies"), idps)])) := by
    intro t
    rfl
  refine ⟨?_, rfl, ?_⟩
  · have hget := upgradeRuns_get store out hok K (some s) hK
    rw [hget]
    simp [upgradeOneDesc, hparse, hidps]
  · rw [hone, jsonLoads_jsonDumps]
    simp [jsonLookup, lookupLast]

/-- Witness for the amended C3: a one-run store with description
`{"interdependencies": "a"}`. -/
theorem upgrade_rewrites_with_version_zero_witness :
    [some ("\x7b\"version\": 0, \"interdependencies\": \"a\"\x7d")][0]?
        = some (some (jsonDumps (.jobj [(("version"), .jint 0),
            (("interdependencies"), .jstr ("a"))]))) ∧
      jsonFirstKey (.jobj [(("version"), .jint 0),
          (("interdependencies"), .jstr ("a"))]) = some ("version") ∧
      upgradeOneDesc (some (jsonDumps (.jobj [(("version"), .jint 0),
          (("interdependencies"), .jstr ("a"))])))
        = some (jsonDumps (.jobj [(("version"), .jint 0),
            (("interdependencies"), .jstr ("a"))])) :=
  upgrade_rewrites_with_version_zero
    [some ("\x7b\"interdependencies\": \"a\"\x7d")]
    [some ("\x7b\"version\": 0, \"interdependencies\": \"a\"\x7d")]
    0 ("\x7b\"interdependencies\": \"a\"\x7d")
    (.jobj [(("interdependencies"), .jstr ("a"))]) (.jstr ("a"))
    (by rfl) (by rfl) (by rfl) (by rfl)

/-! ### The Keysight B1520A driver

`KeysightB1520A.py` builds ASCII commands, sends them over the instrument
link, and parses fixed-format responses.  The pieces relevant to the claims
are embedded below.  Machine floats are modelled as rationals: every numeric
literal appearing in the claims' inputs has an exact decimal value, so
rational arithmetic coincides with IEEE semantics on them. -/

/-- Strip leading and trailing whitespace (Python's `int()`/`float()` accept
surrounding whitespace). -/
def stripWs (cs : List Char) : List Char :=
  ((cs.dropWhile Char.isWhitespace).reverse.dropWhile Char.isWhitespace).reverse

/-- An optional leading sign, as a multiplier. -/
def parseSignOpt : List Char → Int × List Char
  | '+' :: cs => (1, cs)
  | '-' :: cs => (-1, cs)
  | cs => (1, cs)

/-- Model of Python's `int(str)` builtin on decimal strings: optional
surrounding whitespace, optional sign, then digits only.  (Underscored
literals and other bases are not modelled; no claim input uses them.) -/
def pyInt? (s : String) : Option Int :=
  let cs := stripWs s.toList
  let p := parseSignOpt cs
  let d := takeDigits p.2
  if d.1.isEmpty ∨ ¬ d.2.isEmpty then none
  else some (p.1 * (charsToNat d.1 : Int))

/-- Ten to an integer power, as a rational. -/
def pow10 (ex : Int) : ℚ :=
  if ex < 0 then 1 / (10 : ℚ) ^ ex.natAbs else (10 : ℚ) ^ ex.toNat

/-- An optional exponent suffix `e`/`E` with optional sign and digits. -/
def parseExpOpt : List Char → Option (Int × List Char)
  | [] => some (0, [])
  | c :: cs =>
    if c = 'e' ∨ c = 'E' then
      let p := parseSignOpt cs
      let d := takeDigits p.2
      if d.1.isEmpty then none
      else some (p.1 * (charsToNat d.1 : Int), d.2)
    else some (0, c :: cs)

/-- The rational value of a parsed decimal float. -/
def decimalValue (sg : Int) (ip fp : List Char) (ex : Int) : ℚ :=
  (sg : ℚ) * ((charsToNat ip : ℚ)
    + (charsToNat fp : ℚ) / (10 : ℚ) ^ fp.length) * pow10 ex

/-- Model of Python's `float(str)` builtin on finite decimal/scientific
literals: optional surrounding whitespace, optional sign, digits with an
optional fractional part, optional exponent.  (`inf`/`nan` are not
modelled; no claim input uses them.) -/
def pyFloat? (s : String) : Option ℚ :=
  let cs := stripWs s.toList
  let p := parseSignOpt cs
  let d := takeDigits p.2
  match d.2 with
  | '.' :: cs3 =>
    let fr := takeDigits cs3
    if d.1.isEmpty ∧ fr.1.isEmpty then none
    else
      (parseExpOpt fr.2).bind fun q =>
        if q.2.isEmpty then some (decimalValue p.1 d.1 fr.1 q.1) else none
  | _ =>
    if d.1.isEmpty then none
    else
      (parseExpOpt d.2).bind fun q =>
        if q.2.isEmpty then some (decimalValue p.1 d.1 [] q.1) else none

/-- Decimal string of an integer, as Python's `str`/`format` renders it. -/
def intStr (n : Int) : String := String.mk (intToChars n)

/-- Floor of a rational (`den` is always positive, so floored integer
division of `num` by `den` is the floor). -/
def ratFloor (q : ℚ) : Int := Int.fdiv q.num q.den

/-- Fractional decimal digits of a rational in `[0, 1)`, most significant
first, stopping at an exact representation (fuel-bounded, enough for every
float with a short exact decimal expansion — all claim inputs). -/
def fracChars : Nat → ℚ → List Char
  | 0, _ => []
  | f + 1, q =>
    if q = 0 then []
    else digitChar (ratFloor (q * 10)).toNat :: fracChars f (q * 10 - ratFloor (q * 10))

/-- Model of Python's `str`/`format` rendering of a float with a short exact
decimal expansion, e.g. `0.0 ↦ "0.0"`, `1.0 ↦ "1.0"`. -/
def pyFormatFloat (q : ℚ) : String :=
  let sgn : List Char := if q < 0 then ['-'] else []
  let a : ℚ := if q < 0 then -q else q
  let ip : Nat := (ratFloor a).toNat
  let fr : ℚ := a - ratFloor a
  String.mk (sgn ++ natToChars ip
    ++ '.' :: (if fr = 0 then ['0'] else fracChars 17 fr))

/-- Modelled from the spec: the `Group` set-command formatter
(`qcodes.instrument.group_parameter`, outside the verified sources) applies
Python `str.format` to the template
`'WDCV {chan},{sweep_mode},{sweep_start},{sweep_end},{sweep_steps}'`
declared at `KeysightB1520A.py` lines 255–260, substituting the members'
current typed values. -/
def wdcv_set_cmd (chan sweep_mode : Int) (sweep_start sweep_end : ℚ)
    (sweep_steps : Int) : String :=
  "WDCV " ++ intStr chan ++ "," ++ intStr sweep_mode ++ ","
    ++ pyFormatFloat sweep_start ++ "," ++ pyFormatFloat sweep_end ++ ","
    ++ intStr sweep_steps

theorem wdcv_cmd_eval :
    wdcv_set_cmd 1 1 0 1 11 = ("WDCV 1,1,0.0,1.0,11") := by
  have h0 : pyFormatFloat 0 = ("0.0") := by
    unfold pyFormatFloat
    norm_num
    rfl
  have h1 : pyFormatFloat 1 = ("1.0") := by
    unfold pyFormatFloat
    norm_num [ratFloor]
    rfl
  rw [wdcv_set_cmd, h0, h1]
  rfl

/-- C4: building the DC-sweep setup command with channel 1, linear mode (1),
start 0.0 V, end 1.0 V and 11 steps yields exactly `"WDCV 1,1,0.0,1.0,11"`
— trailing optional arguments omitted, comma-separated positional fields
after the mnemonic. -/
theorem wdcv_build_exact :
    wdcv_set_cmd 1 1 0 1 11 = ("WDCV 1,1,0.0,1.0,11") :=
  wdcv_cmd_eval

/-- The five typed fields recovered by `B1520A._get_sweep_steps_parser`
(coercions per `KeysightB1520A.py` lines 488–492: `chan`/`sweep_mode`/
`sweep_steps` as `int`, `sweep_start`/`sweep_end` as `float`). -/
structure SweepStepsFields where
  chan : Int
  sweep_mode : Int
  sweep_start : ℚ
  sweep_end : ℚ
  sweep_steps : Int

/-- The lazy group `(.+?),` of the WDCV/WTDCV grammars: the shortest
non-empty run of characters followed by a comma; consumes the comma. -/
def lazyFieldComma : List Char → Option (List Char × List Char)
  | [] => none
  | c :: rest =>
    match rest with
    | [] => none
    | r0 :: r2 =>
      if r0 = ',' then some ([c], r2)
      else (lazyFieldComma rest).map (fun p => (c :: p.1, p.2))

/-- The lazy final group `(.+?)(;|$)`: the shortest non-empty run of
characters followed by a semicolon or the end of the input. -/
def lazyFieldEnd : List Char → Option (List Char)
  | [] => none
  | [c] => some [c]
  | c :: r0 :: r2 =>
    if r0 = ';' then some [c]
    else (lazyFieldEnd (r0 :: r2)).map (fun l => c :: l)

/-- The input after the first occurrence of `pat` (the `re.search` scan for
the grammar mnemonic; backtracking to later occurrences, which the claims
never exercise, is not modelled). -/
def findSub (pat : List Char) : List Char → Option (List Char)
  | [] => if pat.isEmpty then some [] else none
  | c :: rest =>
    if (c :: rest).take pat.length = pat then some ((c :: rest).drop pat.length)
    else findSub pat rest

/-- `B1520A._get_sweep_steps_parser` (`KeysightB1520A.py` lines 477–493):
`re.search` for the grammar
`WDCV(?P<chan>.+?),(?P<sweep_mode>.+?),(?P<sweep_start>.+?),(?P<sweep_end>.+?),(?P<sweep_steps>.+?)(;|$)`,
then coercion of the five captured fields with `int`/`float`.  A grammar
mismatch raises `ValueError('Sweep steps (WDCV) not found.')`. -/
def get_sweep_steps_parse (response : String) : Except String SweepStepsFields :=
  let fields? : Option (List Char × List Char × List Char × List Char × List Char) := do
    let r1 ← findSub (("WDCV").toList) response.toList
    let p1 ← lazyFieldComma r1
    let p2 ← lazyFieldComma p1.2
    let p3 ← lazyFieldComma p2.2
    let p4 ← lazyFieldComma p3.2
    let f5 ← lazyFieldEnd p4.2
    pure (p1.1, p2.1, p3.1, p4.1, f5)
  match fields? with
  | none => .error ("Sweep steps (WDCV) not found.")
  | some (f1, f2, f3, f4, f5) =>
    match pyInt? (String.mk f1), pyInt? (String.mk f2), pyFloat? (String.mk f3),
        pyFloat? (String.mk f4), pyInt? (String.mk f5) with
    | some chan, some mode, some st, some en, some steps =>
      .ok ⟨chan, mode, st, en, steps⟩
    | _, _, _, _, _ => .error ("invalid literal for int() or float()")

/-- C5: parsing the response line `"WDCV 1,1,0.0,1.0,11"` with the WDCV
sweep-steps grammar reproduces the five original field values with their
declared types (`chan = 1` and `sweep_mode = 1` as ints, `sweep_start = 0.0`
and `sweep_end = 1.0` as floats, `sweep_steps = 11` as int); the same holds
for the string produced by the command builder, a build-then-parse round
trip. -/
theorem wdcv_parse_round_trip :
    get_sweep_steps_parse ("WDCV 1,1,0.0,1.0,11")
        = .ok ⟨1, 1, 0, 1, 11⟩ ∧
      get_sweep_steps_parse (wdcv_set_cmd 1 1 0 1 11)
        = .ok ⟨1, 1, 0, 1, 11⟩ := by
  have hd0 : decimalValue 1 ['0'] ['0'] 0 = 0 := by
    norm_num [decimalValue, charsToNat, digitVal, pow10]
  have hd1 : decimalValue 1 ['1'] ['0'] 0 = 1 := by
    norm_num [decimalValue, charsToNat, digitVal, pow10]
  have h : get_sweep_steps_parse ("WDCV 1,1,0.0,1.0,11")
      = .ok ⟨1, 1, decimalValue 1 ['0'] ['0'] 0,
             decimalValue 1 ['1'] ['0'] 0, 11⟩ := rfl
  refine ⟨?_, ?_⟩
  · rw [h, hd0, hd1]
  · rw [wdcv_cmd_eval, h, hd0, hd1]

/-- `\w` of the spot-measurement pattern (ASCII word characters; the claim
inputs contain only letters and digits). -/
def wordChar (c : Char) : Bool := c.isAlphanum || c = '_'

/-- The `(?P<value>[+-]\d{1,3}\.\d{3,6}E[+-]\d{2})` group of `_pattern`
(`KeysightB1520A.py` lines 20–21): sign, one to three digits, a dot, three to
six digits, `E`, sign, exactly two digits.  Greedy digit runs followed by a
non-digit are equivalent to maximal munch with a length check.  Returns the
matched characters and the rest. -/
def matchValue : List Char → Option (List Char × List Char)
  | [] => none
  | c :: cs1 =>
    if c = '+' ∨ c = '-' then
      let d1 := takeDigits cs1
      if d1.1.length < 1 ∨ 3 < d1.1.length then none
      else
        match d1.2 with
        | '.' :: cs3 =>
          let d2 := takeDigits cs3
          if d2.1.length < 3 ∨ 6 < d2.1.length then none
          else
            match d2.2 with
            | e :: s2 :: a :: b :: rest =>
              if e = 'E' ∧ (s2 = '+' ∨ s2 = '-') ∧ isDig a = true ∧ isDig b = true then
                some (c :: (d1.1 ++ '.' :: (d2.1 ++ [e, s2, a, b])), rest)
              else none
            | _ => none
        | _ => none
    else none

/-- One attempted match of `_pattern` at a fixed position: the optional
`((?P<status>\w)(?P<chnr>\w)(?P<dtype>\w))?` group participates greedily and
backtracks to non-participation if the value group then fails.  Returns the
optional `(status, chnr, dtype)` group, the value characters and the rest. -/
def matchToken (cs : List Char) :
    Option (Option (Char × Char × Char) × List Char × List Char) :=
  match cs with
  | a :: b :: c :: rest =>
    if wordChar a ∧ wordChar b ∧ wordChar c then
      match matchValue rest with
      | some p => some (some (a, b, c), p.1, p.2)
      | none => (matchValue cs).map (fun p => (none, p.1, p.2))
    else (matchValue cs).map (fun p => (none, p.1, p.2))
  | _ => (matchValue cs).map (fun p => (none, p.1, p.2))

/-- `re.finditer(_pattern, ·)`: scan left to right, resuming after each
match (fuel-bounded by the input length; every step consumes at least one
character). -/
def finditerSpot : Nat → List Char → List (Option (Char × Char × Char) × List Char)
  | 0, _ => []
  | _ + 1, [] => []
  | f + 1, c :: tl =>
    match matchToken (c :: tl) with
    | some (g, v, r) => (g, v) :: finditerSpot f r
    | none => finditerSpot f tl

/-- The `dtype` capture of a match (None when the optional tag group did not
participate). -/
def spotDtype (g : Option (Char × Char × Char)) : Option Char :=
  g.map (fun t => t.2.2)

/-- The response-parsing stage of `B1520A._get_capacitance`
(`KeysightB1520A.py` lines 416–427): run `_pattern` over the response; unless
exactly two matches are found, the first tagged `C` and the second tagged
`Y`, raise `ValueError("Result format not supported.")`; otherwise return
the two values as floats. -/
def get_capacitance (response : String) : Except String (ℚ × ℚ) :=
  let parsed := finditerSpot response.length response.toList
  match parsed with
  | [(g1, v1), (g2, v2)] =>
    if spotDtype g1 = some ('C') ∧ spotDtype g2 = some ('Y') then
      match pyFloat? (String.mk v1), pyFloat? (String.mk v2) with
      | some q1, some q2 => .ok (q1, q2)
      | _, _ => .error ("internal: matched value failed float conversion")
    else .error ("Result format not supported.")
  | _ => .error ("Result format not supported.")

/-- C2 counterexample: on the spec's own example response
`"CAFR+1.234560E-03,YAFR+5.678900E-02"` the capacitance get operation does
not return `(1.23456e-3, 5.6789e-2)` — it raises the result-format error,
because each token carries four letters before the sign and the regex's
`dtype` capture is the single character immediately preceding the numeric
field (`'R'` in both tokens), not `'C'`/`'Y'`. -/
theorem get_capacitance_spec_example_fails :
    get_capacitance ("CAFR+1.234560E-03,YAFR+5.678900E-02")
        = .error ("Result format not supported.") ∧
      ¬ get_capacitance ("CAFR+1.234560E-03,YAFR+5.678900E-02")
          = .ok ((1.23456e-3 : ℚ), (5.6789e-2 : ℚ)) := by
  refine ⟨by rfl, ?_⟩
  intro h
  rw [show get_capacitance ("CAFR+1.234560E-03,YAFR+5.678900E-02")
      = .error ("Result format not supported.") from rfl] at h
  exact Except.noConfusion h

/-- C2 (amended): a spot response whose two tokens' three-character tags end
in `C` and then `Y` (e.g. `"NAC+1.234560E-03,NAY+5.678900E-02"`) parses to
`(1.23456e-3, 5.6789e-2)`; with the tag order swapped the parse fails with
the result-format error; the spec's four-letter-tag example
`"CAFR…"` itself fails with the same error. -/
theorem get_capacitance_tagged_parse :
    get_capacitance ("NAC+1.234560E-03,NAY+5.678900E-02")
        = .ok ((1.23456e-3 : ℚ), (5.6789e-2 : ℚ)) ∧
      get_capacitance ("NAY+5.678900E-02,NAC+1.234560E-03")
        = .error ("Result format not supported.") := by
  have hv1 : decimalValue 1 ['1'] ['2', '3', '4', '5', '6', '0'] (-3)
      = (1.23456e-3 : ℚ) := by
    norm_num [decimalValue, charsToNat, digitVal, pow10]
  have hv2 : decimalValue 1 ['5'] ['6', '7', '8', '9', '0', '0'] (-2)
      = (5.6789e-2 : ℚ) := by
    norm_num [decimalValue, charsToNat, digitVal, pow10]
  have h : get_capacitance ("NAC+1.234560E-03,NAY+5.678900E-02")
      = .ok (decimalValue 1 ['1'] ['2', '3', '4', '5', '6', '0'] (-3),
             decimalValue 1 ['5'] ['6', '7', '8', '9', '0', '0'] (-2)) := rfl
  refine ⟨?_, by rfl⟩
  rw [h, hv1, hv2]

/-- Effectful list map over `Option` (the Python list comprehension
`[float(val[3:]) for val in no_commas]`, which propagates the first
exception). -/
def mapOpt (g : α → Option β) : List α → Option (List β)
  | [] => some []
  | x :: xs =>
    match g x with
    | none => none
    | some y => (mapOpt g xs).map (fun r => y :: r)

/-- Python's `str.split(',')`: fields between commas, empty fields kept,
`"" ↦ [""]`. -/
def splitComma : List Char → List (List Char)
  | [] => [[]]
  | c :: rest =>
    match splitComma rest with
    | [] => [[c]]
    | g :: gs => if c = ',' then [] :: g :: gs else (c :: g) :: gs

/-- The even/odd index split of the loop in `parse_sweep_data`
(`KeysightB1520A.py` lines 677–682): indices `0, 2, 4, …` go to the first
list, `1, 3, 5, …` to the second. -/
def splitAlternate : List α → List α × List α
  | [] => ([], [])
  | x :: xs =>
    let p := splitAlternate xs
    (x :: p.2, p.1)

/-- `B1520A.parse_sweep_data` (`KeysightB1520A.py` lines 672–686): split the
raw response on commas, drop the three-character tag of each token and
convert the remainder with `float`, then alternate the values into the two
parameter lists (`np.array` is the identity on these values). -/
def parse_sweep_data (raw : String) : Option (List ℚ × List ℚ) :=
  (mapOpt (fun t => pyFloat? (String.mk (t.drop 3)))
    (splitComma raw.toList)).map splitAlternate

theorem mapOpt_length (g : α → Option β) :
    ∀ (l : List α) (r : List β), mapOpt g l = some r → r.length = l.length := by
  intro l
  induction l with
  | nil => intro r h; simp [mapOpt] at h; subst h; rfl
  | cons x xs ih =>
    intro r h
    unfold mapOpt at h
    cases hx : g x with
    | none => simp [hx] at h
    | some y =>
      simp only [hx] at h
      cases hr : mapOpt g xs with
      | none => simp [hr] at h
      | some r' =>
        simp only [hr, Option.map_some', Option.some_inj] at h
        subst h
        simp [ih r' hr]

theorem splitAlternate_lengths :
    ∀ l : List α, (splitAlternate l).1.length = (l.length + 1) / 2 ∧
      (splitAlternate l).2.length = l.length / 2 := by
  intro l
  induction l with
  | nil => exact ⟨by simp [splitAlternate], by simp [splitAlternate]⟩
  | cons x xs ih =>
    obtain ⟨h1, h2⟩ := ih
    unfold splitAlternate
    constructor
    · simp only [List.length_cons, h2]
      omega
    · simp only [List.length_cons, h1]

/-- C6 counterexample: a sweep response with an odd number of tagged tokens
parses into lists of different lengths (2 and 1 for three tokens), so
`parse_sweep_data` does not return two same-length sequences for every
comma-separated sequence of tagged numeric tokens. -/
theorem parse_sweep_data_odd_tokens :
    (parse_sweep_data
        ("NAC+1.000000E-01,NAY+2.000000E-01,NAC+3.000000E-01")).map
        (fun p => (p.1.length, p.2.length)) = some (2, 1) ∧
      ¬ (∀ p1 p2 : List ℚ,
          parse_sweep_data
              ("NAC+1.000000E-01,NAY+2.000000E-01,NAC+3.000000E-01")
            = some (p1, p2) → p1.length = p2.length) := by
  refine ⟨by rfl, ?_⟩
  intro hclaim
  have hp : parse_sweep_data
      ("NAC+1.000000E-01,NAY+2.000000E-01,NAC+3.000000E-01")
      = some ([decimalValue 1 ['1'] ['0', '0', '0', '0', '0', '0'] (-1),
               decimalValue 1 ['3'] ['0', '0', '0', '0', '0', '0'] (-1)],
              [decimalValue 1 ['2'] ['0', '0', '0', '0', '0', '0'] (-1)]) := rfl
  have := hclaim _ _ hp
  simp at this

/-- C6 (amended): whenever `parse_sweep_data` succeeds on a response of `n`
comma-separated tokens, the first sequence has `⌈n/2⌉` entries and the
second `⌊n/2⌋`; the two sequences have the same length exactly when the
token count is even (one token pair per sweep point). -/
theorem parse_sweep_data_lengths (raw : String) (p : List ℚ × List ℚ)
    (h : parse_sweep_data raw = some p) :
    p.1.length = ((splitComma raw.toList).length + 1) / 2 ∧
      p.2.length = (splitComma raw.toList).length / 2 ∧
      (p.1.length = p.2.length ↔ (splitComma raw.toList).length % 2 = 0) := by
  unfold parse_sweep_data at h
  cases hm : mapOpt (fun t => pyFloat? (String.mk (t.drop 3)))
      (splitComma raw.toList) with
  | none => rw [hm] at h; simp at h
  | some vals =>
    rw [hm] at h
    simp only [Option.map_some', Option.some_inj] at h
    subst h
    have hlen := mapOpt_length _ _ _ hm
    obtain ⟨h1, h2⟩ := splitAlternate_lengths vals
    rw [h1, h2, hlen]
    omega

/-- Witness for the amended C6: a two-token response parses into two
one-element sequences of equal length. -/
theorem parse_sweep_data_lengths_witness :
    ([decimalValue 1 ['1'] ['0', '0', '0', '0', '0', '0'] (-1)],
      [decimalValue 1 ['2'] ['0', '0', '0', '0', '0', '0'] (-1)]).1.length
        = ((splitComma ("NAC+1.000000E-01,NAY+2.000000E-01").toList).length + 1) / 2 ∧
      ([decimalValue 1 ['1'] ['0', '0', '0', '0', '0', '0'] (-1)],
        [decimalValue 1 ['2'] ['0', '0', '0', '0', '0', '0'] (-1)]).2.length
        = (splitComma ("NAC+1.000000E-01,NAY+2.000000E-01").toList).length / 2 ∧
      (([decimalValue 1 ['1'] ['0', '0', '0', '0', '0', '0'] (-1)],
         [decimalValue 1 ['2'] ['0', '0', '0', '0', '0', '0'] (-1)]).1.length
          = ([decimalValue 1 ['1'] ['0', '0', '0', '0', '0', '0'] (-1)],
             [decimalValue 1 ['2'] ['0', '0', '0', '0', '0', '0'] (-1)]).2.length
        ↔ (splitComma ("NAC+1.000000E-01,NAY+2.000000E-01").toList).length % 2 = 0) :=
  parse_sweep_data_lengths ("NAC+1.000000E-01,NAY+2.000000E-01") _ (by rfl)

/-- The state `CVSweepMeasurement.get_raw` reads before issuing anything:
`setup_fnc_already_run` (initialized to `False` in `B1520A.__init__`,
line 179, and set to `True` only after `setup_staircase_cv` completes with no
instrument error, lines 666–668) and the cached `sweep_steps`. -/
structure CVSweepMeasurementState where
  setup_fnc_already_run : Bool
  sweep_steps : Int

/-- The value of `setup_fnc_already_run` before any successful configuration
sequence (`B1520A.__init__`, line 179). -/
def setup_fnc_already_run_init : Bool := false

/-- `CVSweepMeasurement.get_raw` (`KeysightB1520A.py` lines 713–729) up to
its first command: when the setup function has not run successfully it
raises `Warning('Sweep setup has not yet been run successfully')` before any
instrument I/O.  (When the guard passes, line 717 reads
`self._instrument.cvsweep.step_delay()`, but the submodule is registered as
`'cv_sweep'` (line 224), so the attribute lookup raises `AttributeError`,
still before any command is sent.)  The second component is the list of
commands issued. -/
def get_raw (st : CVSweepMeasurementState) :
    Except String (List ℚ × List ℚ) × List String :=
  if st.setup_fnc_already_run = false then
    (.error ("Sweep setup has not yet been run successfully"), [])
  else
    (.error ("AttributeError: no attribute cvsweep"), [])

/-- C7: invoking the sweep execution operation while the module is not
configured — `setup_fnc_already_run` still false, as it is before a
successful full configuration sequence — fails with the not-ready error and
issues no execution command. -/
theorem run_sweep_not_configured (st : CVSweepMeasurementState)
    (h : st.setup_fnc_already_run = false) :
    get_raw st = (.error ("Sweep setup has not yet been run successfully"), [])
      ∧ (get_raw st).2 = [] := by
  constructor <;> simp [get_raw, h]

/-- Witness for C7: the freshly initialized module state. -/
theorem run_sweep_not_configured_witness :
    get_raw ⟨setup_fnc_already_run_init, 1⟩
        = (.error ("Sweep setup has not yet been run successfully"), [])
      ∧ (get_raw ⟨setup_fnc_already_run_init, 1⟩).2 = [] :=
  run_sweep_not_configured ⟨setup_fnc_already_run_init, 1⟩ rfl

/-- The sign helper of `_cv_sweep_voltages` (`KeysightB1520A.py` line 344):
`lambda s: s and (1, -1)[s < 0]` returns `s` itself (that is, 0) for zero and
`±1` otherwise. -/
def pySign (s : ℚ) : ℚ := if s = 0 then 0 else if s < 0 then -1 else 1

/-- Exact-rational `np.linspace`: `endpoint = true` spaces `n` points with
step `(e − s)/(n − 1)` and includes the endpoint; `endpoint = false` uses
step `(e − s)/n` and excludes it. -/
def linspaceQ (s e : ℚ) (n : Nat) (endpoint : Bool) : List ℚ :=
  if endpoint then
    if n ≤ 1 then (List.range n).map (fun _ => s)
    else (List.range n).map (fun (i : Nat) => s + (i : ℚ) * (e - s) / ((n : ℚ) - 1))
  else (List.range n).map (fun (i : Nat) => s + (i : ℚ) * (e - s) / (n : ℚ))

theorem linspaceQ_length (s e : ℚ) (n : Nat) (ep : Bool) :
    (linspaceQ s e n ep).length = n := by
  unfold linspaceQ
  by_cases hep : ep = true
  · by_cases hn : n ≤ 1
    · simp only [hep, if_true, if_pos hn]
      rw [List.length_map, List.length_range]
    · simp only [hep, if_true, if_neg hn]
      rw [List.length_map, List.length_range]
  · simp only [hep, if_false, Bool.false_eq_true]
    rw [List.length_map, List.length_range]

/-- The mode dispatch of `_cv_sweep_voltages` (`KeysightB1520A.py` lines
358–392), parameterized by the two numpy spacing routines (`np.linspace`
composed sweeps and their `np.logspace` counterparts are external library
calls): mode 1 linear, 2 log, 3 linear two-way, 4 log two-way; a two-way
sweep with an even step count mirrors the half list, with an odd step count
builds `n/2` endpoint-free points, the end value, and the reversed half
list; any other mode raises (the `modes` dict lookup). -/
def cv_sweep_dispatch (lin log : ℚ → ℚ → Nat → Bool → List ℚ)
    (mode : Int) (s e : ℚ) (n : Nat) : Except String (List ℚ) :=
  if mode = 1 then .ok (lin s e n true)
  else if mode = 2 then .ok (log s e n true)
  else if mode = 3 then
    .ok (if n % 2 = 0 then lin s e (n / 2) true ++ (lin s e (n / 2) true).reverse
         else lin s e (n / 2) false ++ e :: (lin s e (n / 2) false).reverse)
  else if mode = 4 then
    .ok (if n % 2 = 0 then log s e (n / 2) true ++ (log s e (n / 2) true).reverse
         else log s e (n / 2) false ++ e :: (log s e (n / 2) false).reverse)
  else .error ("KeyError: sweep_mode")

/-- `B1520A._cv_sweep_voltages` (`KeysightB1520A.py` lines 343–392): for the
log modes (2 and 4) a polarity mismatch between start and end either nudges
a zero bound (`sign(·) * 0.005`, which is a no-op because `sign` of zero is
zero) or raises `AssertionError`; then the mode dispatch runs. -/
def cv_sweep_voltages (lin log : ℚ → ℚ → Nat → Bool → List ℚ)
    (mode : Int) (sweep_start sweep_end : ℚ) (sweep_steps : Nat) :
    Except String (List ℚ) :=
  if (mode = 2 ∨ mode = 4) ∧ ¬ pySign sweep_start = pySign sweep_end then
    if pySign sweep_start = 0 then
      cv_sweep_dispatch lin log mode (pySign sweep_start * (5 / 1000))
        sweep_end sweep_steps
    else if pySign sweep_end = 0 then
      cv_sweep_dispatch lin log mode sweep_start
        (pySign sweep_end * (5 / 1000)) sweep_steps
    else .error ("Polarity of start and end is not same.")
  else cv_sweep_dispatch lin log mode sweep_start sweep_end sweep_steps

/-- C9: for any spacing routines that produce the requested number of
points, the 2-way modes (3 = linear, 4 = log) with an odd step count `n`
produce the half list of `n / 2` endpoint-free points, then the end value,
then the reversed half list — a sequence of length `n` whose middle element
(index `n / 2`) is the end value — while the non-2-way modes (1 and 2)
return the plain spacing with no end-value insertion. -/
theorem cv_sweep_two_way_odd_midpoint
    (lin log : ℚ → ℚ → Nat → Bool → List ℚ)
    (hlin : ∀ s e n ep, (lin s e n ep).length = n)
    (hlog : ∀ s e n ep, (log s e n ep).length = n)
    (s e : ℚ) (n : Nat) (hodd : n % 2 = 1)
    (hsg : pySign s = pySign e) :
    (cv_sweep_voltages lin log 3 s e n
        = .ok (lin s e (n / 2) false ++ e :: (lin s e (n / 2) false).reverse) ∧
      (lin s e (n / 2) false ++ e :: (lin s e (n / 2) false).reverse).length = n ∧
      (lin s e (n / 2) false ++ e :: (lin s e (n / 2) false).reverse)[n / 2]?
        = some e) ∧
    (cv_sweep_voltages lin log 4 s e n
        = .ok (log s e (n / 2) false ++ e :: (log s e (n / 2) false).reverse) ∧
      (log s e (n / 2) false ++ e :: (log s e (n / 2) false).reverse).length = n ∧
      (log s e (n / 2) false ++ e :: (log s e (n / 2) false).reverse)[n / 2]?
        = some e) ∧
    cv_sweep_voltages lin log 1 s e n = .ok (lin s e n true) ∧
    cv_sweep_voltages lin log 2 s e n = .ok (log s e n true) := by
  have hmid : ∀ (l : List ℚ), l.length = n / 2 →
      (l ++ e :: l.reverse)[n / 2]? = some e := by
    intro l hl
    rw [List.getElem?_append_right (by omega)]
    rw [hl]
    simp
  have hlen : ∀ (l : List ℚ), l.length = n / 2 →
      (l ++ e :: l.reverse).length = n := by
    intro l hl
    simp [hl]
    omega
  refine ⟨⟨?_, hlen _ (hlin s e (n / 2) false), hmid _ (hlin s e (n / 2) false)⟩,
    ⟨?_, hlen _ (hlog s e (n / 2) false), hmid _ (hlog s e (n / 2) false)⟩, ?_, ?_⟩
  · simp [cv_sweep_voltages, cv_sweep_dispatch, hodd]
  · simp [cv_sweep_voltages, cv_sweep_dispatch, hsg, hodd]
  · simp [cv_sweep_voltages, cv_sweep_dispatch]
  · simp [cv_sweep_voltages, cv_sweep_dispatch, hsg]

/-- Witness for C9: a linear 2-way sweep from 1 to 2 in 5 steps (the
rational linspace stands in for both spacing routines, which satisfy the
length contract). -/
theorem cv_sweep_two_way_odd_midpoint_witness :
    (cv_sweep_voltages linspaceQ linspaceQ 3 1 2 5
        = .ok (linspaceQ 1 2 (5 / 2) false
            ++ 2 :: (linspaceQ 1 2 (5 / 2) false).reverse) ∧
      (linspaceQ 1 2 (5 / 2) false
          ++ 2 :: (linspaceQ 1 2 (5 / 2) false).reverse).length = 5 ∧
      (linspaceQ 1 2 (5 / 2) false
          ++ 2 :: (linspaceQ 1 2 (5 / 2) false).reverse)[5 / 2]? = some 2) ∧
    (cv_sweep_voltages linspaceQ linspaceQ 4 1 2 5
        = .ok (linspaceQ 1 2 (5 / 2) false
            ++ 2 :: (linspaceQ 1 2 (5 / 2) false).reverse) ∧
      (linspaceQ 1 2 (5 / 2) false
          ++ 2 :: (linspaceQ 1 2 (5 / 2) false).reverse).length = 5 ∧
      (linspaceQ 1 2 (5 / 2) false
          ++ 2 :: (linspaceQ 1 2 (5 / 2) false).reverse)[5 / 2]? = some 2) ∧
    cv_sweep_voltages linspaceQ linspaceQ 1 1 2 5 = .ok (linspaceQ 1 2 5 true) ∧
    cv_sweep_voltages linspaceQ linspaceQ 2 1 2 5 = .ok (linspaceQ 1 2 5 true) :=
  cv_sweep_two_way_odd_midpoint linspaceQ linspaceQ
    (fun s e n ep => linspaceQ_length s e n ep)
    (fun s e n ep => linspaceQ_length s e n ep)
    1 2 5 (by rfl) (by norm_num [pySign])

/-- A structured instrument command: mnemonic plus ordered argument fields
(the spec's Command data model). -/
structure Command where
  mnemonic : String
  args : List String

/-- Modelled from the spec: `MessageBuilder().rc(chnum, ranging_mode,
measurement_range)` (`message_builder.py` is outside the verified sources) —
the RC instruction carries the channel and ranging mode, with the trailing
optional measurement range elided when it is `None`, per the spec's
trailing-omission rule. -/
def rc (chnum ranging_mode : Int) (measurement_range : Option Int) : Command :=
  ⟨("RC"), [intStr chnum, intStr ranging_mode]
    ++ (match measurement_range with
        | none => []
        | some r => [intStr r])⟩

/-- Modelled from the spec: `constants.RangingMode.AUTO` (the constants
module is outside the verified sources; AUTO is the auto-ranging member). -/
def RangingMode_AUTO : Int := 0

/-- The ranging-related state of `B1520A` (`KeysightB1520A.py` lines
180–182): the channel, the cached ranging mode (initially AUTO) and the
cached fixed measurement range (initially `None`). -/
structure B1520ARangingState where
  chnum : Int
  ranging_mode : Int
  measurement_range_for_non_auto : Option Int

/-- `B1520A._set_ranging_mode` (`KeysightB1520A.py` lines 535–544): cache
the new mode, reset the cached fixed range to `None` when the mode is AUTO,
and send an RC command built from the cached values.  Returns the new state
and the command sent. -/
def set_ranging_mode (st : B1520ARangingState) (val : Int) :
    B1520ARangingState × Command :=
  let mr := if val = RangingMode_AUTO then none
            else st.measurement_range_for_non_auto
  (⟨st.chnum, val, mr⟩, rc st.chnum val mr)

/-- `B1520A._set_measurement_range_for_non_auto` (`KeysightB1520A.py` lines
546–553): cache the new fixed range and send an RC command built from the
cached ranging mode and the new range.  Returns the new state and the
command sent. -/
def set_measurement_range_for_non_auto (st : B1520ARangingState)
    (val : Option Int) : B1520ARangingState × Command :=
  (⟨st.chnum, st.ranging_mode, val⟩, rc st.chnum st.ranging_mode val)

/-- Whether an RC command carries a fixed measurement range argument (a
third positional field). -/
def carriesRangeArg (c : Command) : Bool := decide (3 ≤ c.args.length)

/-- C10 counterexample: from the initial state (mode AUTO, no cached range,
`KeysightB1520A.py` lines 180–182), setting `measurement_range_for_non_auto`
to 5 — a ranging-related set operation — leaves the cached ranging mode
AUTO yet sends an RC command that carries the fixed range argument, so the
claimed invariant does not hold after every ranging-related set operation. -/
theorem ranging_auto_invariant_violated :
    (set_measurement_range_for_non_auto ⟨1, RangingMode_AUTO, none⟩
        (some 5)).1.ranging_mode = RangingMode_AUTO ∧
      carriesRangeArg (set_measurement_range_for_non_auto
        ⟨1, RangingMode_AUTO, none⟩ (some 5)).2 = true ∧
      (set_measurement_range_for_non_auto ⟨1, RangingMode_AUTO, none⟩
        (some 5)).2.args = [("1"), ("0"), ("5")] := by
  refine ⟨rfl, rfl, rfl⟩

/-- C10 (amended): setting the ranging mode to AUTO does reset the cached
`measurement_range_for_non_auto` to `None`, and after every
`_set_ranging_mode` call whose resulting cached mode is AUTO the RC command
sent carries no fixed measurement range argument; the invariant does not
extend to `_set_measurement_range_for_non_auto`, which can send an RC with
mode AUTO and a fixed range (see the counterexample). -/
theorem set_ranging_mode_auto_no_range (st : B1520ARangingState) (val : Int) :
    (val = RangingMode_AUTO →
      (set_ranging_mode st val).1.measurement_range_for_non_auto = none) ∧
    ((set_ranging_mode st val).1.ranging_mode = RangingMode_AUTO →
      carriesRangeArg (set_ranging_mode st val).2 = false) := by
  constructor
  · intro h
    simp [set_ranging_mode, h]
  · intro h
    have hv : val = RangingMode_AUTO := h
    simp [set_ranging_mode, rc, carriesRangeArg, hv]

/-- Witness for the amended C10: switching a fixed-range state back to
AUTO. -/
theorem set_ranging_mode_auto_no_range_witness :
    (set_ranging_mode ⟨1, 2, some 7⟩ 0).1.measurement_range_for_non_auto
        = none ∧
      carriesRangeArg (set_ranging_mode ⟨1, 2, some 7⟩ 0).2 = false :=
  ⟨(set_ranging_mode_auto_no_range ⟨1, 2, some 7⟩ 0).1 rfl,
   (set_ranging_mode_auto_no_range ⟨1, 2, some 7⟩ 0).2 (by rfl)⟩
